import Mathlib

/-!
Verification of `src/main.py` of the luma-attendee-scraper repository.

The file shallowly embeds the parts of `scrape_luma_event` (and the
`handle_exceptions` decorator) that the specification talks about:

* the stabilization loop (`while attempts < max_attempts: ...`), modelled as a
  step function on the loop state driven by an infinite count signal
  `sig : Nat → Nat` (round `n` reads `sig n`);
* the participant-extraction loop, modelled by `extractEntry` /
  `extractAll` over rendered `Entry` values, including the possible
  `IndexError` from `name_parts[0]`;
* the LinkedIn resolver loop, modelled by `resolveParticipant`;
* the filter and CSV-writing pass, modelled by `filterLinked` / `exportRows`;
* the top-level exception guard, modelled by `handleExceptionsPrinting`.
-/

set_option autoImplicit false

/-! ### Stabilization loop (src/main.py lines 142-171)

The Python loop keeps `last_participant_count` (initially 0) and `attempts`
(initially 0) and runs `while attempts < max_attempts` with
`max_attempts = 3`.  Each round it reads the current rendered count, scrolls,
waits, and then increments `attempts` when the read count equals the previous
round's count, resetting it to 0 otherwise; finally it stores the read count
in `last_participant_count`. -/

/-- The mutable state of the loading loop: `last_participant_count` and
`attempts` from the Python code. -/
structure LoopState where
  last : Nat
  attempts : Nat
deriving Repr, DecidableEq

/-- The constant `max_attempts = 3` from the code. -/
def maxAttempts : Nat := 3

/-- One iteration of the `while attempts < max_attempts` body, given the
count `current` read at the start of the round: `attempts` is incremented
when `current == last_participant_count`, reset to `0` otherwise, and then
`last_participant_count = current_participant_count` is stored. -/
def loopStep (current : Nat) (s : LoopState) : LoopState :=
  { last := current
    attempts := if current = s.last then s.attempts + 1 else 0 }

/-- The loop state after `n` rounds, reading counts from the signal `sig`
(round `n + 1` reads `sig n`); both counters start at `0`. -/
def runRounds (sig : Nat → Nat) : Nat → LoopState
  | 0 => { last := 0, attempts := 0 }
  | n + 1 => loopStep (sig n) (runRounds sig n)

/-- The loop exits after exactly `n` rounds: the guard `attempts <
max_attempts` fails at round `n` and held at every earlier round. -/
def terminatesAfter (sig : Nat → Nat) (n : Nat) : Prop :=
  maxAttempts ≤ (runRounds sig n).attempts ∧
    ∀ m < n, (runRounds sig m).attempts < maxAttempts

instance (sig : Nat → Nat) (n : Nat) : Decidable (terminatesAfter sig n) := by
  unfold terminatesAfter; infer_instance

/-- The value the comparison of round `n + 1` compares `sig n` against:
the initial `0` for the first round, the previous reading afterwards. -/
def prevReading (sig : Nat → Nat) : Nat → Nat
  | 0 => 0
  | n + 1 => sig n

/-- Round `n + 1` observes an unchanged count: the count it reads equals the
previous round's count (the initial `0` for the very first round). -/
def cmpEq (sig : Nat → Nat) (n : Nat) : Prop := sig n = prevReading sig n

instance (sig : Nat → Nat) (n : Nat) : Decidable (cmpEq sig n) := by
  unfold cmpEq; infer_instance

theorem runRounds_last (sig : Nat → Nat) (n : Nat) :
    (runRounds sig n).last = prevReading sig n := by
  cases n with
  | zero => rfl
  | succ m => rfl

theorem runRounds_attempts_succ (sig : Nat → Nat) (n : Nat) :
    (runRounds sig (n + 1)).attempts =
      if cmpEq sig n then (runRounds sig n).attempts + 1 else 0 := by
  show (if sig n = (runRounds sig n).last then _ else 0) = _
  rw [runRounds_last]
  rfl

theorem attempts_succ_le (sig : Nat → Nat) (n : Nat) :
    (runRounds sig (n + 1)).attempts ≤ (runRounds sig n).attempts + 1 := by
  rw [runRounds_attempts_succ]
  split
  · exact Nat.le_refl _
  · exact Nat.zero_le _

/-- If `attempts` is positive after `n` rounds, the last round's comparison
succeeded and `attempts` grew by exactly one. -/
theorem attempts_pos_elim (sig : Nat → Nat) (n : Nat)
    (h : 1 ≤ (runRounds sig n).attempts) :
    ∃ m, n = m + 1 ∧ cmpEq sig m ∧
      (runRounds sig n).attempts = (runRounds sig m).attempts + 1 := by
  cases n with
  | zero => exact absurd h (by simp [runRounds])
  | succ m =>
    refine ⟨m, rfl, ?_, ?_⟩
    · by_contra hc
      rw [runRounds_attempts_succ, if_neg hc] at h
      exact absurd h (by omega)
    · by_cases hc : cmpEq sig m
      · rw [runRounds_attempts_succ, if_pos hc]
      · rw [runRounds_attempts_succ, if_neg hc] at h
        exact absurd h (by omega)

/-- If the comparison of round `n + 1` succeeds, `attempts` grows by one. -/
theorem attempts_succ_of_cmpEq (sig : Nat → Nat) (n : Nat) (h : cmpEq sig n) :
    (runRounds sig (n + 1)).attempts = (runRounds sig n).attempts + 1 := by
  rw [runRounds_attempts_succ, if_pos h]

/-- An `attempts` value of at least 3 after some round forces three
consecutive successful comparisons ending at that round. -/
theorem three_cmpEq_of_attempts (sig : Nat → Nat) (n : Nat)
    (h : 3 ≤ (runRounds sig n).attempts) :
    ∃ k, cmpEq sig k ∧ cmpEq sig (k + 1) ∧ cmpEq sig (k + 2) := by
  obtain ⟨m2, hn2, hc2, he2⟩ := attempts_pos_elim sig n (by omega)
  have h2 : 2 ≤ (runRounds sig m2).attempts := by omega
  obtain ⟨m1, hn1, hc1, he1⟩ := attempts_pos_elim sig m2 (by omega)
  have h1 : 1 ≤ (runRounds sig m1).attempts := by omega
  obtain ⟨m0, hn0, hc0, _⟩ := attempts_pos_elim sig m1 (by omega)
  refine ⟨m0, hc0, ?_, ?_⟩
  · rw [show m0 + 1 = m1 from hn0.symm]; exact hc1
  · rw [show m0 + 2 = m2 from by omega]; exact hc2

/-- Three consecutive successful comparisons push `attempts` to at least 3. -/
theorem attempts_of_three_cmpEq (sig : Nat → Nat) (k : Nat)
    (h0 : cmpEq sig k) (h1 : cmpEq sig (k + 1)) (h2 : cmpEq sig (k + 2)) :
    3 ≤ (runRounds sig (k + 3)).attempts := by
  have e0 : (runRounds sig (k + 1)).attempts = (runRounds sig k).attempts + 1 :=
    attempts_succ_of_cmpEq sig k h0
  have e1 : (runRounds sig (k + 2)).attempts = (runRounds sig (k + 1)).attempts + 1 :=
    attempts_succ_of_cmpEq sig (k + 1) h1
  have e2 : (runRounds sig (k + 3)).attempts = (runRounds sig (k + 2)).attempts + 1 :=
    attempts_succ_of_cmpEq sig (k + 2) h2
  omega

/-- The loop has exited by round `n` iff `attempts` reached 3. -/
theorem exists_terminatesAfter_iff (sig : Nat → Nat) :
    (∃ n, terminatesAfter sig n) ↔ ∃ n, 3 ≤ (runRounds sig n).attempts := by
  simp only [terminatesAfter, maxAttempts]
  constructor
  · rintro ⟨n, hn, -⟩
    exact ⟨n, hn⟩
  · intro h
    have hfind := Nat.find_spec h
    refine ⟨Nat.find h, hfind, fun m hm => ?_⟩
    have := Nat.find_min h hm
    omega

/-! ### Record extraction (src/main.py lines 173-205)

Each rendered guest entry contributes its display-name text and the value of
its `href` attribute (`None` when absent).  The Python loop skips names
containing `"@"`, splits the name with `full_name.split(maxsplit=1)`,
capitalizes the parts via `str.capitalize`, skips entries with a falsy
`href`, and builds `"https://lu.ma" + href` as the profile URL.  Indexing
`name_parts[0]` raises `IndexError` when the split produced no token. -/

/-- A rendered guest entry: the display-name text and the `href` attribute
of its profile link (`none` when `get_attribute` returns `None`). -/
structure Entry where
  name : String
  href : Option String
deriving Repr, DecidableEq

/-- A participant record as built by the extraction loop; `linkedin` is
absent until the resolver loop adds it. -/
structure Participant where
  first_name : String
  last_name : String
  profile_url : String
  linkedin : Option String := none
deriving Repr, DecidableEq

/-- Python `str.split(maxsplit=1)`: skip leading whitespace, take the first
whitespace-free token, skip the separating whitespace run, and keep the rest
of the string (if non-empty) as the second piece. -/
def pySplit1 (s : String) : List String :=
  let l := s.data.dropWhile Char.isWhitespace
  let tok := l.takeWhile (fun c => ¬ c.isWhitespace)
  let rest := (l.dropWhile (fun c => ¬ c.isWhitespace)).dropWhile Char.isWhitespace
  if tok = [] then []
  else if rest = [] then [String.mk tok]
  else [String.mk tok, String.mk rest]

/-- Python `str.capitalize`: first character uppercased, the rest
lowercased. -/
def pyCapitalize (s : String) : String :=
  match s.data with
  | [] => ""
  | c :: cs => String.mk (c.toUpper :: cs.map Char.toLower)

/-- The site origin prefixed to relative profile hrefs in the code. -/
def lumaOrigin : String := "https://lu.ma"

/-- Python's `"@" in full_name` membership test: the one-character needle
occurs in the string iff the character occurs among its characters. -/
def pyContains (s : String) (c : Char) : Bool := s.data.contains c

/-- The outcome of the extraction-loop body for a single entry. -/
inductive ExtractResult where
  /-- The body executed `continue`: no candidate is produced. -/
  | skipped
  /-- The body raised `IndexError` at `name_parts[0]`. -/
  | failed
  /-- The body appended a participant record. -/
  | ok (p : Participant)
deriving Repr, DecidableEq

/-- The extraction-loop body for one entry, in source order: the `"@" in
full_name` check, the `split(maxsplit=1)` with `name_parts[0]` (which raises
when no token exists), the falsy-`href` check, and the URL join. -/
def extractEntry (e : Entry) : ExtractResult :=
  if pyContains e.name '@' then .skipped
  else
    match pySplit1 e.name with
    | [] => .failed
    | t :: rest =>
      match e.href with
      | none => .skipped
      | some h =>
        if h = "" then .skipped
        else .ok { first_name := pyCapitalize t
                   last_name := match rest with
                     | [] => ""
                     | r :: _ => pyCapitalize r
                   profile_url := lumaOrigin ++ h }

/-- The whole extraction loop: entries are processed in rendering order, a
raised `IndexError` aborts the loop (and the run), skipped entries leave no
trace, and accepted entries are appended in order. -/
def extractAll : List Entry → Except String (List Participant)
  | [] => .ok []
  | e :: es =>
    match extractEntry e with
    | .skipped => extractAll es
    | .failed => .error "list index out of range"
    | .ok p =>
      match extractAll es with
      | .ok ps => .ok (p :: ps)
      | .error m => .error m

/-! ### Profile resolution (src/main.py lines 207-229)

For each participant the code navigates to the profile page and queries
`.social-links a[href*="linkedin.com"]`.  We abstract the visited page as a
function from profile URL to the query outcome: `none` when no element
matches (`count() == 0`), `some att` when the first match has attribute
value `att` (itself an `Option`, since `get_attribute` may return `None`).
An absent element, an absent attribute and an empty attribute all leave the
participant without a `linkedin` key. -/

/-- The resolver-loop body for one participant: attach the LinkedIn URL only
when the element exists and its `href` attribute is present and non-empty
(the Python `if not linkedin_url` check). -/
def resolveParticipant (page : String → Option (Option String))
    (p : Participant) : Participant :=
  match page p.profile_url with
  | none => p
  | some att =>
    match att with
    | none => p
    | some u => if u = "" then p else { p with linkedin := some u }

/-- The whole resolver loop: every participant is processed, in order. -/
def resolveAll (page : String → Option (Option String))
    (ps : List Participant) : List Participant :=
  ps.map (resolveParticipant page)

/-! ### Filter and CSV export (src/main.py lines 231-271) -/

/-- The event metadata read once per run from the event page. -/
structure EventMetadata where
  title : String
  date : String
  time : String
  place : String
  host : String
deriving Repr, DecidableEq

/-- One row of the output CSV, with the fixed header fields of the code. -/
structure CsvRow where
  first_name : String
  last_name : String
  linkedin : String
  custom_att_1 : String
  custom_att_2 : String
  custom_att_3 : String
  custom_att_4 : String
  custom_att_5 : String
  custom_att_6 : String
deriving Repr, DecidableEq

/-- The filter step `[p for p in participants if "linkedin" in p]`: keep the
participants whose `linkedin` key was set by the resolver. -/
def filterLinked (ps : List Participant) : List Participant :=
  ps.filter (fun p => p.linkedin.isSome)

/-- The per-row dictionary written by `writer.writerow`: participant fields
plus the six custom attributes, the last being the constant `"Luma"`. -/
def buildRow (meta : EventMetadata) (p : Participant) : CsvRow :=
  { first_name := p.first_name
    last_name := p.last_name
    linkedin := p.linkedin.getD ""
    custom_att_1 := meta.title
    custom_att_2 := meta.date
    custom_att_3 := meta.time
    custom_att_4 := meta.place
    custom_att_5 := meta.host
    custom_att_6 := "Luma" }

/-- The export pass: filter, then write one row per remaining participant,
in order. -/
def exportRows (meta : EventMetadata) (ps : List Participant) : List CsvRow :=
  (filterLinked ps).map (buildRow meta)

/-! ### Whole run and the top-level guard (src/main.py lines 26-35, 38-39)

The body of `scrape_luma_event` after the guest list has stabilized:
extraction, resolution, filtering and row building.  Any exception raised on
the way is modelled by the `Except` error branch; the CSV file is written
only when the run reaches the export pass. -/

/-- The scraping run from extraction onwards: an exception in the extraction
loop aborts the run before any file is written; otherwise the resolver,
filter and export passes produce the CSV rows. -/
def runScrape (entries : List Entry) (page : String → Option (Option String))
    (meta : EventMetadata) : Except String (List CsvRow) :=
  match extractAll entries with
  | .error m => .error m
  | .ok ps => .ok (exportRows meta (resolveAll page ps))

/-- The CSV file produced by a run: present only when the run reached the
export pass without raising. -/
def csvWritten (run : Except String (List CsvRow)) : Option (List CsvRow) :=
  match run with
  | .ok rows => some rows
  | .error _ => none

/-- The `handle_exceptions` decorator: the wrapped call either returns its
value with nothing printed, or is caught, prints
`An error occurred: ...` and returns `None`. -/
def handleExceptionsPrinting {α : Type} (run : Except String α) :
    Option α × List String :=
  match run with
  | .ok a => (some a, [])
  | .error e => (none, ["An error occurred: " ++ e])

/-! ### Claim theorems for the stabilization loop -/

/-- The mock signal whose reads are all `5` (the spec sequence `[5,5,5]`
continued). -/
def sigConst5 : Nat → Nat := fun _ => 5

/-- The mock signal reading `5` once and `6` afterwards (the spec sequence
`[5,6,6,6]` continued). -/
def sig5666 : Nat → Nat := fun n => if n = 0 then 5 else 6

/-- Modelled from the spec: one round of the Stabilization Detector as the
specification words it — compare `current_count` to `last_count` from the
previous round; if equal increment `stable_rounds`, else reset
`stable_rounds` to 0; set `last_count = current_count`.  The fields
`last` / `attempts` of `LoopState` play `last_count` / `stable_rounds`. -/
def specStabStep (current : Nat) (s : LoopState) : LoopState :=
  { last := current
    attempts := if current = s.last then s.attempts + 1 else 0 }

theorem terminatesAfter_attempts_eq_three (sig : Nat → Nat) (n : Nat)
    (h : terminatesAfter sig n) : (runRounds sig n).attempts = 3 := by
  obtain ⟨h1, h2⟩ := h
  simp only [maxAttempts] at h1 h2
  cases n with
  | zero => simp [runRounds] at h1
  | succ m =>
    have hm := h2 m (Nat.lt_succ_self m)
    have hle := attempts_succ_le sig m
    omega

/-- C1: the claim says that, starting from `last_count = 0` with threshold
3, the detector terminates after exactly 3 rounds on the signal `[5,5,5]`
and after exactly 4 rounds on `[5,6,6,6]`.  It does not: after 3 rounds of
constant `5` the `attempts` counter is only 2 (the first read `5` is
compared against the initial `0` and resets it), so the guard
`attempts < max_attempts` still holds; likewise after 4 rounds of
`[5,6,6,6]`. -/
theorem stabilization_test_counterexample :
    ¬ terminatesAfter sigConst5 3 ∧ (runRounds sigConst5 3).attempts = 2 ∧
      ¬ terminatesAfter sig5666 4 ∧ (runRounds sig5666 4).attempts = 2 := by
  decide

/-- C1 (amended): with threshold 3 and starting state `last_count = 0`, the
detector on the constant-5 signal (the reads `[5,5,5]` continued) terminates
after exactly 4 rounds and reports count 5; on the signal `[5,6,6,6]`
continued it terminates after exactly 5 rounds — the 3rd successful
consecutive comparison of `6` — and reports count 6. -/
theorem stabilization_test_amended :
    terminatesAfter sigConst5 4 ∧ (runRounds sigConst5 4).last = 5 ∧
      terminatesAfter sig5666 5 ∧ (runRounds sig5666 5).last = 6 := by
  decide

/-- C2: the loop starts from `last_count = 0`, `stable_rounds = 0`; each
round reads the current count and updates the state exactly as the
specification's step description (`specStabStep`) prescribes — increment on
an unchanged count, reset to 0 otherwise, then store the read count — and
the loop terminates exactly when the counter reaches the threshold 3 (it
never jumps past it). -/
theorem stabilization_step_behavior :
    (∀ sig : Nat → Nat, runRounds sig 0 = { last := 0, attempts := 0 }) ∧
      (∀ (current : Nat) (s : LoopState), loopStep current s = specStabStep current s) ∧
      (∀ (sig : Nat → Nat) (n : Nat),
        runRounds sig (n + 1) = specStabStep (sig n) (runRounds sig n)) ∧
      (∀ (sig : Nat → Nat) (n : Nat), terminatesAfter sig n ↔
        ((runRounds sig n).attempts = 3 ∧
          ∀ m < n, (runRounds sig m).attempts < 3)) := by
  refine ⟨fun _ => rfl, fun _ _ => rfl, fun _ _ => rfl, fun sig n => ?_⟩
  constructor
  · intro h
    refine ⟨terminatesAfter_attempts_eq_three sig n h, fun m hm => ?_⟩
    have := h.2 m hm
    simpa [maxAttempts] using this
  · rintro ⟨h1, h2⟩
    exact ⟨by simp [maxAttempts, h1], fun m hm => by simpa [maxAttempts] using h2 m hm⟩

/-- C2 witness: at the concrete signal of constant 5 and round 4, the
termination characterization evaluates as stated. -/
theorem stabilization_step_behavior_witness :
    terminatesAfter sigConst5 4 ↔
      ((runRounds sigConst5 4).attempts = 3 ∧
        ∀ m < 4, (runRounds sigConst5 m).attempts < 3) :=
  stabilization_step_behavior.2.2.2 sigConst5 4

/-- C3: the loop terminates (for some round count) iff at some point three
consecutive rounds each observe a count equal to the previous round's count
(with the initial `last_count = 0` standing in as the reading before round
one); in particular it runs forever on any strictly increasing count
signal, so there is no upper bound on the number of rounds. -/
theorem stabilization_unbounded (sig : Nat → Nat) :
    ((∃ n, terminatesAfter sig n) ↔
      ∃ k, cmpEq sig k ∧ cmpEq sig (k + 1) ∧ cmpEq sig (k + 2)) ∧
      (StrictMono sig → ∀ n, ¬ terminatesAfter sig n) := by
  constructor
  · rw [exists_terminatesAfter_iff]
    constructor
    · rintro ⟨n, hn⟩
      exact three_cmpEq_of_attempts sig n hn
    · rintro ⟨k, h0, h1, h2⟩
      exact ⟨k + 3, attempts_of_three_cmpEq sig k h0 h1 h2⟩
  · intro hmono n hterm
    have h3 : 3 ≤ (runRounds sig n).attempts := by
      have := hterm.1
      simpa [maxAttempts] using this
    obtain ⟨k, _, h1, _⟩ := three_cmpEq_of_attempts sig n h3
    have heq : sig (k + 1) = sig k := h1
    have hlt : sig k < sig (k + 1) := hmono (Nat.lt_succ_self k)
    omega

/-- C3 witness: the identity signal is strictly increasing, so the loop has
not terminated by round 5; and the constant-5 signal does terminate. -/
theorem stabilization_unbounded_witness :
    ¬ terminatesAfter (fun i => i) 5 ∧ ∃ n, terminatesAfter sigConst5 n :=
  ⟨(stabilization_unbounded (fun i => i)).2 (fun _ _ h => h) 5,
    (stabilization_unbounded sigConst5).1.2 ⟨1, by decide, by decide, by decide⟩⟩

/-! ### Helper lemmas for the extraction pipeline -/

/-- Every accepted entry passed the href check: the candidate's profile URL
is the origin-joined href, and its `linkedin` key is absent. -/
theorem extractEntry_ok_spec (e : Entry) (p : Participant)
    (h : extractEntry e = .ok p) :
    ∃ hv, e.href = some hv ∧ hv ≠ "" ∧
      p.profile_url = lumaOrigin ++ hv ∧ p.linkedin = none := by
  obtain ⟨nm, hr⟩ := e
  simp only [extractEntry] at h
  by_cases hat : pyContains nm '@' = true
  · rw [if_pos hat] at h
    exact absurd h (by simp)
  · rw [if_neg hat] at h
    cases hsp : pySplit1 nm with
    | nil =>
      rw [hsp] at h
      exact absurd h (by simp)
    | cons t rest =>
      rw [hsp] at h
      cases hr with
      | none => exact absurd h (by simp)
      | some hv =>
        dsimp only at h
        by_cases hv0 : hv = ""
        · rw [if_pos hv0] at h
          exact absurd h (by simp)
        · rw [if_neg hv0] at h
          simp only [ExtractResult.ok.injEq] at h
          exact ⟨hv, rfl, hv0, by rw [← h], by rw [← h]⟩

/-- Every participant produced by the extraction loop has no `linkedin`
key yet. -/
theorem extractAll_linkedin_none (entries : List Entry) :
    ∀ ps : List Participant, extractAll entries = .ok ps →
      ∀ p ∈ ps, p.linkedin = none := by
  induction entries with
  | nil =>
    intro ps h p hp
    simp only [extractAll, Except.ok.injEq] at h
    subst h
    cases hp
  | cons e es ih =>
    intro ps h p hp
    simp only [extractAll] at h
    cases hx : extractEntry e with
    | skipped =>
      rw [hx] at h
      exact ih ps h p hp
    | failed =>
      rw [hx] at h
      exact absurd h (by simp)
    | ok q =>
      rw [hx] at h
      cases hr : extractAll es with
      | error m =>
        rw [hr] at h
        exact absurd h (by simp)
      | ok qs =>
        rw [hr] at h
        simp only [Except.ok.injEq] at h
        subst h
        cases hp with
        | head =>
          obtain ⟨-, -, -, -, hnone⟩ := extractEntry_ok_spec e p hx
          exact hnone
        | tail _ hmem => exact ih qs hr p hmem

/-- An entry on which the loop body raises aborts the whole extraction
loop with an error, wherever it sits in the list. -/
theorem extractAll_error_of_mem (entries : List Entry) (e : Entry)
    (he : e ∈ entries) (hf : extractEntry e = .failed) :
    ∃ m, extractAll entries = .error m := by
  induction entries with
  | nil => cases he
  | cons a es ih =>
    simp only [extractAll]
    cases he with
    | head =>
      rw [hf]
      exact ⟨"list index out of range", rfl⟩
    | tail _ hmem =>
      cases hx : extractEntry a with
      | skipped => exact ih hmem
      | failed => exact ⟨"list index out of range", rfl⟩
      | ok p =>
        obtain ⟨m, hm⟩ := ih hmem
        rw [hm]
        exact ⟨m, rfl⟩

/-- The resolver-loop body either leaves the participant untouched or
attaches a non-empty LinkedIn URL read from the visited page. -/
theorem resolveParticipant_spec (page : String → Option (Option String))
    (q : Participant) :
    resolveParticipant page q = q ∨
      ∃ u, u ≠ "" ∧ page q.profile_url = some (some u) ∧
        resolveParticipant page q = { q with linkedin := some u } := by
  unfold resolveParticipant
  cases hp : page q.profile_url with
  | none => exact Or.inl rfl
  | some att =>
    cases att with
    | none => exact Or.inl rfl
    | some u =>
      dsimp only
      by_cases hu : u = ""
      · rw [if_pos hu]
        exact Or.inl rfl
      · rw [if_neg hu]
        exact Or.inr ⟨u, hu, rfl, rfl⟩

/-- Membership in the filtered list means membership plus a present
`linkedin` key. -/
theorem mem_filterLinked (ps : List Participant) (p : Participant) :
    p ∈ filterLinked ps ↔ p ∈ ps ∧ p.linkedin.isSome := by
  simp [filterLinked, List.mem_filter]

/-! ### Concrete sample data used by the witnesses -/

/-- A concrete event metadata sample. -/
def sampleMeta : EventMetadata :=
  { title := "AI for Developers", date := "Sat, Nov 1", time := "6:00 PM"
    place := "San Francisco", host := "GitAuto" }

/-- A single well-formed rendered entry. -/
def sampleEntries : List Entry := [{ name := "Jane Doe", href := some "/user/usr-1" }]

/-- A page map resolving Jane's profile page to a LinkedIn link. -/
def samplePage : String → Option (Option String) := fun s =>
  if s = "https://lu.ma/user/usr-1" then some (some "https://linkedin.com/in/jane")
  else none

/-- The row the sample run writes. -/
def sampleRow : CsvRow :=
  { first_name := "Jane", last_name := "Doe"
    linkedin := "https://linkedin.com/in/jane"
    custom_att_1 := "AI for Developers", custom_att_2 := "Sat, Nov 1"
    custom_att_3 := "6:00 PM", custom_att_4 := "San Francisco"
    custom_att_5 := "GitAuto", custom_att_6 := "Luma" }

/-- A participant candidate before resolution. -/
def sampleParticipant : Participant :=
  { first_name := "Jane", last_name := "Doe"
    profile_url := "https://lu.ma/user/usr-1", linkedin := none }

/-- An entry list whose only entry has a whitespace-only display name. -/
def badEntries : List Entry := [{ name := " ", href := none }]

/-! ### Claim theorems for the extraction/resolution/export pipeline -/

/-- C4: every row of the written CSV carries a non-empty `linkedin` value
(candidates that the resolver left unenriched are removed by the filter
step), and all rows of one run carry the run's single event metadata in the
six custom-attribute columns, the sixth being the constant `"Luma"`. -/
theorem export_invariant (entries : List Entry)
    (page : String → Option (Option String)) (meta : EventMetadata)
    (rows : List CsvRow) (h : runScrape entries page meta = .ok rows) :
    ∀ r ∈ rows, r.linkedin ≠ "" ∧ r.custom_att_1 = meta.title ∧
      r.custom_att_2 = meta.date ∧ r.custom_att_3 = meta.time ∧
      r.custom_att_4 = meta.place ∧ r.custom_att_5 = meta.host ∧
      r.custom_att_6 = "Luma" := by
  intro r hr
  unfold runScrape at h
  cases hx : extractAll entries with
  | error m =>
    rw [hx] at h
    exact absurd h (by simp)
  | ok ps =>
    rw [hx] at h
    simp only [Except.ok.injEq] at h
    subst h
    unfold exportRows at hr
    obtain ⟨p, hpf, rfl⟩ := List.mem_map.mp hr
    obtain ⟨hpmem, hsome⟩ := (mem_filterLinked _ p).mp hpf
    unfold resolveAll at hpmem
    obtain ⟨q, hq, rfl⟩ := List.mem_map.mp hpmem
    have hqnone : q.linkedin = none := extractAll_linkedin_none entries ps hx q hq
    rcases resolveParticipant_spec page q with heq | ⟨u, hu, -, heq⟩
    · rw [heq, hqnone] at hsome
      exact absurd hsome (by simp)
    · rw [heq]
      exact ⟨by simpa [buildRow] using hu, rfl, rfl, rfl, rfl, rfl, rfl⟩

/-- C4 witness: the sample run writes exactly the sample row, and that row
satisfies the invariant. -/
theorem export_invariant_witness :
    sampleRow.linkedin ≠ "" ∧ sampleRow.custom_att_1 = sampleMeta.title ∧
      sampleRow.custom_att_2 = sampleMeta.date ∧
      sampleRow.custom_att_3 = sampleMeta.time ∧
      sampleRow.custom_att_4 = sampleMeta.place ∧
      sampleRow.custom_att_5 = sampleMeta.host ∧
      sampleRow.custom_att_6 = "Luma" :=
  export_invariant sampleEntries samplePage sampleMeta [sampleRow] (by rfl)
    sampleRow (by simp)

/-- C5: an entry whose display name contains an `@` character is discarded
before name splitting and link reading: the extraction body produces no
candidate for it. -/
theorem email_name_no_candidate (e : Entry)
    (h : pyContains e.name '@' = true) : extractEntry e = .skipped := by
  unfold extractEntry
  rw [if_pos h]

/-- C5 witness: the entry named `user@example.com` is skipped. -/
theorem email_name_no_candidate_witness :
    extractEntry { name := "user@example.com", href := some "/user/usr-2" } =
      .skipped :=
  email_name_no_candidate { name := "user@example.com", href := some "/user/usr-2" }
    (by decide)

/-- C6: the display name is split on the first whitespace run; the first
token becomes `first_name` and the remainder (if any) `last_name`, each
normalized by `str.capitalize`; in particular `"Jane Doe"` gives
`("Jane", "Doe")` and `"Madonna"` gives `("Madonna", "")`. -/
theorem name_parsing :
    (∀ (name t hv : String) (rest : List String),
        pyContains name '@' = false → pySplit1 name = t :: rest → hv ≠ "" →
        extractEntry { name := name, href := some hv } = .ok
          { first_name := pyCapitalize t
            last_name := (rest.head?.map pyCapitalize).getD ""
            profile_url := lumaOrigin ++ hv }) ∧
      (∀ hv : String, hv ≠ "" →
        extractEntry { name := "Jane Doe", href := some hv } = .ok
          { first_name := "Jane", last_name := "Doe"
            profile_url := lumaOrigin ++ hv }) ∧
      (∀ hv : String, hv ≠ "" →
        extractEntry { name := "Madonna", href := some hv } = .ok
          { first_name := "Madonna", last_name := ""
            profile_url := lumaOrigin ++ hv }) := by
  have hgen : ∀ (name t hv : String) (rest : List String),
      pyContains name '@' = false → pySplit1 name = t :: rest → hv ≠ "" →
      extractEntry { name := name, href := some hv } = .ok
        { first_name := pyCapitalize t
          last_name := (rest.head?.map pyCapitalize).getD ""
          profile_url := lumaOrigin ++ hv } := by
    intro name t hv rest hat hsp hhv
    cases rest with
    | nil => simp [extractEntry, hat, hsp, hhv]
    | cons r rs => simp [extractEntry, hat, hsp, hhv]
  exact ⟨hgen,
    fun hv hhv => hgen "Jane Doe" "Jane" hv ["Doe"] (by decide) (by decide) hhv,
    fun hv hhv => hgen "Madonna" "Madonna" hv [] (by decide) (by decide) hhv⟩

/-- C6 witness: the two spec scenarios at a concrete href. -/
theorem name_parsing_witness :
    extractEntry { name := "Jane Doe", href := some "/user/usr-3" } = .ok
        { first_name := "Jane", last_name := "Doe"
          profile_url := lumaOrigin ++ "/user/usr-3" } ∧
      extractEntry { name := "Madonna", href := some "/user/usr-4" } = .ok
        { first_name := "Madonna", last_name := ""
          profile_url := lumaOrigin ++ "/user/usr-4" } :=
  ⟨name_parsing.2.1 "/user/usr-3" (by decide),
    name_parsing.2.2 "/user/usr-4" (by decide)⟩

/-- C7: a missing LinkedIn element, a missing `href` attribute and an empty
`href` attribute each leave the candidate exactly as it was (its `linkedin`
key stays unset); the resolver loop still continues with the remaining
candidates; and no participant without a `linkedin` key survives the
filter step. -/
theorem resolver_not_found (page : String → Option (Option String))
    (q : Participant) :
    (page q.profile_url = none ∨ page q.profile_url = some none ∨
        page q.profile_url = some (some "") →
      resolveParticipant page q = q) ∧
      (∀ qs, resolveAll page (q :: qs) =
        resolveParticipant page q :: resolveAll page qs) ∧
      (∀ (ps : List Participant) (p : Participant),
        p ∈ filterLinked ps → p.linkedin ≠ none) := by
  refine ⟨?_, fun qs => rfl, fun ps p hp hnone => ?_⟩
  · rintro (h | h | h) <;> simp [resolveParticipant, h]
  · have hmem := (mem_filterLinked ps p).mp hp
    rw [hnone] at hmem
    exact absurd hmem.2 (by simp)

/-- C7 witness: on a page with no LinkedIn element anywhere, the sample
candidate is returned unchanged. -/
theorem resolver_not_found_witness :
    resolveParticipant (fun _ => none) sampleParticipant = sampleParticipant :=
  (resolver_not_found (fun _ => none) sampleParticipant).1 (Or.inl rfl)

/-- C8: any exception in the run is caught by the single top-level guard,
which prints `An error occurred: ...` and returns `None` (no re-raise);
when the run fails before the export pass, no CSV output exists. -/
theorem top_level_guard :
    (∀ (α : Type) (run : Except String α) (e : String), run = .error e →
        handleExceptionsPrinting run = (none, ["An error occurred: " ++ e])) ∧
      (∀ (entries : List Entry) (page : String → Option (Option String))
          (meta : EventMetadata) (m : String),
        runScrape entries page meta = .error m →
          (handleExceptionsPrinting (runScrape entries page meta)).1 = none ∧
            csvWritten (runScrape entries page meta) = none) := by
  constructor
  · rintro α run e rfl
    rfl
  · intro entries page meta m h
    rw [h]
    exact ⟨rfl, rfl⟩

/-- C8 witness: the run on the whitespace-named entry fails and produces a
`None` result and no CSV. -/
theorem top_level_guard_witness :
    (handleExceptionsPrinting (runScrape badEntries (fun _ => none) sampleMeta)).1 =
        none ∧
      csvWritten (runScrape badEntries (fun _ => none) sampleMeta) = none :=
  top_level_guard.2 badEntries (fun _ => none) sampleMeta
    "list index out of range" (by rfl)

/-- C9: a candidate built from an entry with non-empty href gets
`"https://lu.ma"` prefixed to that href as its profile URL; every accepted
entry had a present non-empty href; and (for a name that passes the earlier
checks) an absent or empty href produces no candidate. -/
theorem profile_url_origin :
    (∀ (name hv : String) (p : Participant),
        extractEntry { name := name, href := some hv } = .ok p →
        p.profile_url = lumaOrigin ++ hv) ∧
      (∀ (e : Entry) (p : Participant), extractEntry e = .ok p →
        e.href ≠ none ∧ e.href ≠ some "") ∧
      (∀ (name t : String) (rest : List String), pyContains name '@' = false →
        pySplit1 name = t :: rest →
        extractEntry { name := name, href := none } = .skipped ∧
          extractEntry { name := name, href := some "" } = .skipped) := by
  refine ⟨?_, ?_, ?_⟩
  · intro name hv p h
    obtain ⟨hv2, h1, -, h3, -⟩ :=
      extractEntry_ok_spec { name := name, href := some hv } p h
    have : hv = hv2 := by
      simpa using h1
    rw [this]
    exact h3
  · intro e p h
    obtain ⟨hv, h1, h2, -, -⟩ := extractEntry_ok_spec e p h
    rw [h1]
    exact ⟨by simp, by simp [h2]⟩
  · intro name t rest hat hsp
    exact ⟨by simp [extractEntry, hat, hsp], by simp [extractEntry, hat, hsp]⟩

/-- C9 witness: Jane's concrete candidate URL is the origin-joined href, and
the href-less variants of the entry are skipped. -/
theorem profile_url_origin_witness :
    (Participant.mk "Jane" "Doe" "https://lu.ma/user/usr-5" none).profile_url =
        lumaOrigin ++ "/user/usr-5" ∧
      extractEntry { name := "Jane Doe", href := none } = .skipped ∧
      extractEntry { name := "Jane Doe", href := some "" } = .skipped :=
  ⟨profile_url_origin.1 "Jane Doe" "/user/usr-5"
      (Participant.mk "Jane" "Doe" "https://lu.ma/user/usr-5" none) (by rfl),
    (profile_url_origin.2.2 "Jane Doe" "Jane" ["Doe"] (by decide) (by decide)).1,
    (profile_url_origin.2.2 "Jane Doe" "Jane" ["Doe"] (by decide) (by decide)).2⟩

/-- C10: an entry whose display name is empty or whitespace-only (and has
no `@`) is not merely skipped: the split yields no token, indexing it
raises, and a run whose entry list contains such an entry aborts through the
top-level guard with no CSV written. -/
theorem whitespace_name_aborts :
    (∀ name : String, (∀ c ∈ name.data, c.isWhitespace) → pySplit1 name = []) ∧
      (∀ (name : String) (hr : Option String), pyContains name '@' = false →
        pySplit1 name = [] → extractEntry { name := name, href := hr } = .failed) ∧
      (∀ (entries : List Entry) (page : String → Option (Option String))
          (meta : EventMetadata) (e : Entry),
        e ∈ entries → extractEntry e = .failed →
          (handleExceptionsPrinting (runScrape entries page meta)).1 = none ∧
            csvWritten (runScrape entries page meta) = none) := by
  refine ⟨?_, ?_, ?_⟩
  · intro name hws
    have hl : name.data.dropWhile Char.isWhitespace = [] := by
      rw [List.dropWhile_eq_nil_iff]
      simpa using hws
    simp [pySplit1, hl]
  · intro name hr hat hsp
    simp [extractEntry, hat, hsp]
  · intro entries page meta e he hf
    obtain ⟨m, hm⟩ := extractAll_error_of_mem entries e he hf
    have hrun : runScrape entries page meta = .error m := by
      unfold runScrape
      rw [hm]
    rw [hrun]
    exact ⟨rfl, rfl⟩

/-- C10 witness: the single-space name has no token, its entry raises, and
the run containing it yields no result and no CSV. -/
theorem whitespace_name_aborts_witness :
    pySplit1 " " = [] ∧
      extractEntry { name := " ", href := (none : Option String) } = .failed ∧
      (handleExceptionsPrinting
          (runScrape [{ name := " ", href := none }] (fun _ => none) sampleMeta)).1 =
        none :=
  ⟨whitespace_name_aborts.1 " " (by decide),
    whitespace_name_aborts.2.1 " " none (by decide) (by decide),
    (whitespace_name_aborts.2.2 [{ name := " ", href := none }] (fun _ => none)
      sampleMeta { name := " ", href := none } (by simp) (by decide)).1⟩
